/-
Verification of the chat relay worker (chatting-sever): a shallow embedding
of the DB manager worker (src/database_client/manager.py), the durable-store
model (src/database_client/models.py), the log client
(src/redis_client/initialize.py) and the startup path (src/main.py),
with theorems settling the specification claims.

Modelling conventions:
* Redis Stream entry ids are modelled as naturals, monotonically increasing
  per topic (the spec's "log-assigned identifier"); field values are strings
  (bytes already decoded, which the Python code does eagerly).
* SQLAlchemy sessions: each `async with get_session()` block is one atomic
  commit against `DBState`.  The unique constraint on
  `messages.redis_msg_id` (models.py, `unique=True, nullable=True`) makes a
  commit that inserts a duplicate non-null id raise (IntegrityError); the
  model returns the pre-commit state in that case, mirroring rollback.
* A raised-and-caught Python exception is modelled by returning the state
  unchanged from the point of the raise and emitting no further events.
* `dbUp = false` models the durable store being unreachable: the first
  store call raises.
-/
import Mathlib

namespace ChatRelay

/-- models.py `Message`: durable projection of a log entry.
`redis_msg_id` is nullable and unique when present (the idempotency anchor);
`created_at` is assigned by the store. -/
structure Message where
  room_id : String
  user_id : String
  message : String
  redis_msg_id : Option Nat
  created_at : Nat
  deriving Repr, DecidableEq

/-- The durable store: the `rooms` table (room ids) and the `messages`
table, in insertion order. -/
structure DBState where
  rooms : List String
  messages : List Message
  deriving Repr, DecidableEq

/-- One appended record in a topic's log (a Redis Stream entry). -/
structure StreamEntry where
  id : Nat
  fields : List (String × String)
  deriving Repr, DecidableEq

/-- Server-side state of the one consumer group the worker uses
(spec: one fixed group name per process). -/
structure Group where
  lastDeliveredId : Nat
  pending : List Nat
  deriving Repr, DecidableEq

/-- One topic's log: entries in append order with increasing ids, the next
id to assign, and the consumer-group state when the group exists. -/
structure TopicLog where
  entries : List StreamEntry
  nextId : Nat
  group : Option Group
  deriving Repr, DecidableEq

/-- A log with no entries and no group; fresh ids start at 1. -/
def TopicLog.empty : TopicLog := ⟨[], 1, none⟩

/-! ## Log client (src/redis_client/initialize.py) -/

/-- redisClient.XAdd: validates `value = [user, message]` (raises ValueError
on a shorter list), then appends one entry with fields `user`/`message` in
that order, returning the assigned id. -/
def XAdd (t : TopicLog) (value : List String) : Except String (TopicLog × Nat) :=
  if value.length < 2 then
    .error "XAdd expects value as [user, message]"
  else
    let user := value.headI
    let msg := value.tail.headI
    let e : StreamEntry := ⟨t.nextId, [("user", user), ("message", msg)]⟩
    .ok (⟨t.entries ++ [e], t.nextId + 1, t.group⟩, t.nextId)

/-- redisClient.XLen: current entry count. -/
def XLen (t : TopicLog) : Nat := t.entries.length

/-- Resolve an XGROUP CREATE start id: `"$"` means the id of the last entry
currently in the stream (0 when empty), so only later entries are new. -/
def resolveStartId (t : TopicLog) (start_id : String) : Nat :=
  if start_id = "$" then ((t.entries.getLast?).map StreamEntry.id).getD 0
  else 0

/-- `charsPrefix pat l`: the char list `pat` is a prefix of `l`. -/
def charsPrefix : List Char → List Char → Bool
  | [], _ => true
  | _ :: _, [] => false
  | p :: ps, c :: cs => p = c && charsPrefix ps cs

/-- `charsContains pat l`: the char list `pat` occurs contiguously in `l`. -/
def charsContains (pat : List Char) : List Char → Bool
  | [] => charsPrefix pat []
  | c :: cs => charsPrefix pat (c :: cs) || charsContains pat cs

/-- Python's substring containment `pat in s`, used by the source to detect
the BUSYGROUP condition on the exception's message. -/
def strContainsSub (s pat : String) : Bool := charsContains pat.toList s.toList

/-- The raw xgroup_create call: raises BUSYGROUP when the group already
exists, a transport error when the service is unreachable. -/
def xgroup_create_raw (up : Bool) (t : TopicLog) (start_id : String) :
    Except String TopicLog :=
  if !up then .error "connection timeout"
  else
    match t.group with
    | some _ => .error "BUSYGROUP Consumer Group name already exists"
    | none => .ok ⟨t.entries, t.nextId, some ⟨resolveStartId t start_id, []⟩⟩

/-- redisClient.XGroupCreate: wraps the raw call; an exception whose message
contains "BUSYGROUP" is swallowed (group already exists, treated as
success, returning None); any other exception is re-raised. -/
def XGroupCreate (up : Bool) (t : TopicLog) (start_id : String) :
    Except String TopicLog :=
  match xgroup_create_raw up t start_id with
  | .ok t2 => .ok t2
  | .error e =>
      if strContainsSub e "BUSYGROUP" then .ok t else .error e

/-- redisClient.XReadGroup with cursor `">"`: deliver entries not yet
delivered to the group (id beyond the group cursor), at most `count`,
in log order; advance the cursor past them and add them to the pending
(delivered-but-unacked) set.  Without a group the call fails. -/
def XReadGroup (t : TopicLog) (count : Nat) :
    Except String (TopicLog × List StreamEntry) :=
  match t.group with
  | none => .error "NOGROUP No such consumer group"
  | some g =>
      let new := (t.entries.filter (fun e => g.lastDeliveredId < e.id)).take count
      let newLast := ((new.getLast?).map StreamEntry.id).getD g.lastDeliveredId
      .ok (⟨t.entries, t.nextId, some ⟨newLast, g.pending ++ new.map StreamEntry.id⟩⟩,
           new)

/-- redisClient.XAck: mark entries processed for the group (remove from the
pending set). -/
def XAck (t : TopicLog) (ids : List Nat) : TopicLog :=
  match t.group with
  | none => t
  | some g =>
      ⟨t.entries, t.nextId, some ⟨g.lastDeliveredId, g.pending.filter (fun i => i ∉ ids)⟩⟩

/-- The trim request redisClient.XTrim issues: method maxlen, inexact
(approximate trimming allowed), bound `max_len`. -/
structure TrimRequest where
  method : String
  bound : Nat
  exact : Bool
  deriving Repr, DecidableEq

/-- redisClient.XTrim: issue a maxlen trim request with `exact=False`;
the service removes oldest entries so that at most `max_len` remain
(we model the service honouring the bound exactly, which the approximate
contract permits). -/
def XTrim (t : TopicLog) (max_len : Nat) : TopicLog × TrimRequest :=
  (⟨t.entries.drop (t.entries.length - max_len), t.nextId, t.group⟩,
   ⟨"maxlen", max_len, false⟩)

/-! ## Relay worker (src/database_client/manager.py) -/

/-- Observable side effects of one per-entry processing step, in program
order: a committed room insert, a committed message insert, an ack. -/
inductive Event where
  | commitRoomEv (room_id : String)
  | commitMsgEv (m : Message)
  | ackEv (msg_id : Nat)
  deriving Repr, DecidableEq

/-- `msg_data.get(field, b'').decode('utf-8')`: the field's value, or the
empty string when the field is absent. -/
def lookupField (msg_data : List (String × String)) (field : String) : String :=
  (msg_data.lookup field).getD ""

/-- The unique constraint on `messages.redis_msg_id` (models.py): a commit
inserting a row whose non-null id is already present raises. -/
def uniqueViolation (db : DBState) (m : Message) : Bool :=
  match m.redis_msg_id with
  | none => false
  | some i => db.messages.any (fun m2 => m2.redis_msg_id = some i)

/-- DBManager.ensure_room_exists: select the room; insert and commit when
missing.  Runs in its own session, so its commit survives a later failure
in the same `process_message` call. -/
def ensure_room_exists (db : DBState) (room_id : String) : DBState × List Event :=
  if room_id ∈ db.rooms then (db, [])
  else (⟨db.rooms ++ [room_id], db.messages⟩, [.commitRoomEv room_id])

/-- DBManager.process_message: decode `user`/`message` (absent fields decode
to `""`); an entry with an empty user or message is acked without any store
write and dropped; otherwise ensure the room, select the existing row by
`redis_msg_id` (the result is never branched on in the source), add the new
row unconditionally and commit, then ack.  The surrounding `try` catches
every raise (store unreachable on the first store call, or the unique
constraint firing at commit): the handler only logs, so no ack is issued
and no further state changes. -/
def process_message (dbUp : Bool) (db : DBState) (t : TopicLog)
    (room_id : String) (msg_id : Nat) (msg_data : List (String × String)) :
    DBState × TopicLog × List Event :=
  let user_id := lookupField msg_data "user"
  let message_text := lookupField msg_data "message"
  if user_id = "" ∨ message_text = "" then
    (db, XAck t [msg_id], [.ackEv msg_id])
  else if !dbUp then
    (db, t, [])
  else
    let er := ensure_room_exists db room_id
    let new_msg : Message :=
      ⟨room_id, user_id, message_text, some msg_id, er.1.messages.length⟩
    if uniqueViolation er.1 new_msg then
      (er.1, t, er.2)
    else
      (⟨er.1.rooms, er.1.messages ++ [new_msg]⟩, XAck t [msg_id],
       er.2 ++ [.commitMsgEv new_msg, .ackEv msg_id])

/-- The loop body over one delivered batch inside
DBManager.process_room_stream: each entry's field list becomes a dict and
is handed to `process_message`; per-entry failures are caught inside
`process_message`, so the loop always reaches the end of the batch. -/
def processBatch (dbUp : Bool) (db : DBState) (t : TopicLog) (room_id : String)
    (batch : List StreamEntry) : DBState × TopicLog × List Event :=
  match batch with
  | [] => (db, t, [])
  | e :: rest =>
      let r1 := process_message dbUp db t room_id e.id e.fields
      let r2 := processBatch dbUp r1.1 r1.2.1 room_id rest
      (r2.1, r2.2.1, r1.2.2 ++ r2.2.2)

/-- DBManager.process_room_stream: one group read (batch bound 10); when it
returns nothing the function returns at once (the length check and trim are
not reached); otherwise process the batch, then query the length and issue
a maxlen-50 trim exactly when it exceeds 50.  A raise from the group read
itself is caught by the surrounding `try`. -/
def process_room_stream (dbUp : Bool) (db : DBState) (t : TopicLog)
    (room_id : String) : DBState × TopicLog × List Event × Option TrimRequest :=
  match XReadGroup t 10 with
  | .error _ => (db, t, [], none)
  | .ok (t1, batch) =>
      if batch.isEmpty then (db, t1, [], none)
      else
        let r := processBatch dbUp db t1 room_id batch
        if 50 < XLen r.2.1 then
          (r.1, (XTrim r.2.1 50).1, r.2.2, some (XTrim r.2.1 50).2)
        else (r.1, r.2.1, r.2.2, none)

/-- The `ORDER BY created_at DESC` relation: `a` is at least as recent as
`b`. -/
def recentFirst (a b : Message) : Prop := b.created_at ≤ a.created_at

instance : DecidableRel recentFirst := fun a b => Nat.decLe b.created_at a.created_at

instance : IsTotal Message recentFirst := ⟨fun a b => Nat.le_total b.created_at a.created_at⟩

instance : IsTrans Message recentFirst :=
  ⟨fun _ _ _ h1 h2 => Nat.le_trans h2 h1⟩

/-- The rows `restore_messages_from_db` selects: the room's messages
ordered by `created_at` descending (a stable sort, as the store is free to
order ties arbitrarily), limited to `limit`. -/
def restoreSelection (db : DBState) (room_id : String) (limit : Nat) :
    List Message :=
  (List.insertionSort recentFirst
      (db.messages.filter (fun m => m.room_id = room_id))).take limit

/-- One iteration of the restore loop: append `[user_id, message]` to the
log and count it; a raise from the append (`redisUp = false`, or a
malformed value list) is caught, logged and skipped. -/
def restoreStep (redisUp : Bool) (acc : TopicLog × Nat) (m : Message) :
    TopicLog × Nat :=
  if redisUp then
    match XAdd acc.1 [m.user_id, m.message] with
    | .ok p => (p.1, acc.2 + 1)
    | .error _ => acc
  else acc

/-- DBManager.restore_messages_from_db: select the room's messages ordered
by `created_at` descending, limit `limit`; when empty return 0; otherwise
append each to the log oldest-first (the reversed selection), counting the
appends that succeed (a failed append is logged and skipped).  The function
only reads from the store: no `session.add` or commit occurs. -/
def restore_messages_from_db (redisUp : Bool) (db : DBState) (t : TopicLog)
    (room_id : String) (limit : Nat) : DBState × TopicLog × Nat :=
  let msgs := restoreSelection db room_id limit
  if msgs = [] then (db, t, 0)
  else
    let r := msgs.reverse.foldl (restoreStep redisUp) (t, 0)
    (db, r.1, r.2)

/-- DBManager.initialize_consumer_groups, restricted to one topic: create
the worker's consumer group with start id `"$"`. -/
def initialize_consumer_group (up : Bool) (t : TopicLog) :
    Except String TopicLog :=
  XGroupCreate up t "$"

/-- The reconciliation step of DBManager.run, one cycle: fetch the store's
room-id set, add the rooms new to the active set (creating their consumer
groups), then drop active rooms no longer in the store.  Returns the new
active set and the set of rooms whose groups were created this cycle. -/
def reconcileRooms (active db_rooms : Finset String) :
    Finset String × Finset String :=
  let new_rooms := db_rooms \ active
  let active1 := active ∪ new_rooms
  let deleted_rooms := active1 \ db_rooms
  (active1 \ deleted_rooms, new_rooms)

/-- The startup path of src/main.py for one existing room: create the
consumer group (start id `"$"`) first, then restore the room's messages
from the store into the log (limit 50). -/
def main_startup (db : DBState) (t : TopicLog) (room_id : String) :
    Except String (TopicLog × Nat) :=
  match initialize_consumer_group true t with
  | .error e => .error e
  | .ok t1 =>
      let r := restore_messages_from_db true db t1 room_id 50
      .ok (r.2.1, r.2.2)

/-! ## Definitions for the claim statements -/

/-- The number of PersistedMessage rows carrying the origin id `i`. -/
def originCount (db : DBState) (i : Nat) : Nat :=
  db.messages.countP (fun m => m.redis_msg_id = some i)

/-- `n` deliveries of the same entry to the Committing step (redelivery
after crash-before-ack), with the store reachable. -/
def deliverN : Nat → DBState → TopicLog → String → Nat →
    List (String × String) → DBState × TopicLog
  | 0, db, t, _, _, _ => (db, t)
  | n + 1, db, t, room_id, msg_id, msg_data =>
      let r := process_message true db t room_id msg_id msg_data
      deliverN n r.1 r.2.1 room_id msg_id msg_data

/-- Every acknowledgment of `msg_id` in the event trace is preceded by a
committed message insert carrying that origin id. -/
def commitBeforeAck (msg_id : Nat) (evs : List Event) : Prop :=
  ∀ j : Nat, evs[j]? = some (Event.ackEv msg_id) →
    ∃ (i : Nat) (m : Message), i < j ∧ evs[i]? = some (Event.commitMsgEv m) ∧
      m.redis_msg_id = some msg_id

/-- A topic log holding 60 well-formed entries, built through the log
client's own append (as 60 chat sends before the worker discovers the
topic would). -/
def sixtyEntryLog : TopicLog :=
  (List.range 60).foldl
    (fun t _ =>
      match XAdd t ["u", "m"] with
      | .ok p => p.1
      | .error _ => t)
    TopicLog.empty

/-- A topic log whose consumer group was created on the empty stream and
that then received 51 well-formed appends (a drain backlog over the
retention bound). -/
def relayBacklogLog : TopicLog :=
  match XGroupCreate true TopicLog.empty "$" with
  | .ok t0 =>
      (List.range 51).foldl
        (fun t _ =>
          match XAdd t ["u", "m"] with
          | .ok p => p.1
          | .error _ => t)
        t0
  | .error _ => TopicLog.empty

/-- The group read the worker's cycle performs on `relayBacklogLog`. -/
def relayBacklogRead : TopicLog × List StreamEntry :=
  ((XReadGroup relayBacklogLog 10).toOption).getD (TopicLog.empty, [])

/-! ## Claim theorems -/

lemma ensure_room_exists_messages (db : DBState) (room_id : String) :
    (ensure_room_exists db room_id).1.messages = db.messages := by
  unfold ensure_room_exists
  split <;> rfl

lemma uniqueViolation_iff (db : DBState) (m : Message) (i : Nat)
    (h : m.redis_msg_id = some i) :
    uniqueViolation db m = true ↔ 0 < originCount db i := by
  simp [uniqueViolation, h, originCount, List.countP_pos_iff, List.any_eq_true]

/-- With the store unreachable, the first store call raises and the
catch-all handler leaves everything unchanged (well-formed entry). -/
lemma process_message_down (db : DBState) (t : TopicLog) (room_id : String)
    (msg_id : Nat) (msg_data : List (String × String))
    (hu : lookupField msg_data "user" ≠ "")
    (hm : lookupField msg_data "message" ≠ "") :
    process_message false db t room_id msg_id msg_data = (db, t, []) := by
  simp [process_message, hu, hm]

/-- Redelivery branch: a row with this origin id exists, the unconditional
re-insert violates the unique constraint at commit, and the handler leaves
the message table and the log untouched — in particular no ack. -/
lemma process_message_dup (db : DBState) (t : TopicLog) (room_id : String)
    (msg_id : Nat) (msg_data : List (String × String))
    (hu : lookupField msg_data "user" ≠ "")
    (hm : lookupField msg_data "message" ≠ "")
    (hdup : 0 < originCount db msg_id) :
    process_message true db t room_id msg_id msg_data =
      ((ensure_room_exists db room_id).1, t, (ensure_room_exists db room_id).2) := by
  have hv : uniqueViolation (ensure_room_exists db room_id).1
      ⟨room_id, lookupField msg_data "user", lookupField msg_data "message",
       some msg_id, (ensure_room_exists db room_id).1.messages.length⟩ = true := by
    rw [uniqueViolation_iff _ _ msg_id rfl]
    unfold originCount
    rw [ensure_room_exists_messages]
    exact hdup
  simp [process_message, hu, hm, hv]

/-- Fresh-insert branch: no row with this origin id exists, the insert
commits, and the ack follows. -/
lemma process_message_fresh (db : DBState) (t : TopicLog) (room_id : String)
    (msg_id : Nat) (msg_data : List (String × String))
    (hu : lookupField msg_data "user" ≠ "")
    (hm : lookupField msg_data "message" ≠ "")
    (h0 : originCount db msg_id = 0) :
    process_message true db t room_id msg_id msg_data =
      (⟨(ensure_room_exists db room_id).1.rooms,
        db.messages ++ [⟨room_id, lookupField msg_data "user",
          lookupField msg_data "message", some msg_id, db.messages.length⟩]⟩,
       XAck t [msg_id],
       (ensure_room_exists db room_id).2 ++
         [Event.commitMsgEv ⟨room_id, lookupField msg_data "user",
            lookupField msg_data "message", some msg_id, db.messages.length⟩,
          Event.ackEv msg_id]) := by
  have hmsgs := ensure_room_exists_messages db room_id
  have hv : uniqueViolation (ensure_room_exists db room_id).1
      ⟨room_id, lookupField msg_data "user", lookupField msg_data "message",
       some msg_id, db.messages.length⟩ = false := by
    rw [Bool.eq_false_iff]
    intro hvt
    rw [uniqueViolation_iff _ _ msg_id rfl] at hvt
    unfold originCount at hvt h0
    rw [ensure_room_exists_messages] at hvt
    omega
  simp [process_message, hu, hm, hv, hmsgs]

/-- Once exactly one row with the origin id exists and the at-most-one
invariant holds, any further redeliveries leave both facts intact. -/
lemma deliverN_stable (n : Nat) (db : DBState) (t : TopicLog) (room_id : String)
    (msg_id : Nat) (msg_data : List (String × String))
    (hu : lookupField msg_data "user" ≠ "")
    (hm : lookupField msg_data "message" ≠ "")
    (h1 : originCount db msg_id = 1)
    (hinv : ∀ i, originCount db i ≤ 1) :
    originCount (deliverN n db t room_id msg_id msg_data).1 msg_id = 1 ∧
    ∀ i, originCount (deliverN n db t room_id msg_id msg_data).1 i ≤ 1 := by
  induction n generalizing db t with
  | zero => exact ⟨h1, hinv⟩
  | succ n ih =>
      have hdup : 0 < originCount db msg_id := by omega
      have heq := process_message_dup db t room_id msg_id msg_data hu hm hdup
      have hmsgs := ensure_room_exists_messages db room_id
      simp only [deliverN, heq]
      exact ih _ _
        (by unfold originCount; rw [hmsgs]; exact h1)
        (fun i => by unfold originCount; rw [hmsgs]; exact hinv i)

/-- C2 (code_bug): when Committing processes a redelivered entry whose
origin id already has a persisted row, the source does not branch on the
existence check it performs: it re-inserts unconditionally, the unique
constraint on `redis_msg_id` raises at commit, the catch-all handler only
logs, and the entry is NOT acknowledged (it stays pending and is
redelivered forever).  Evaluated here at a concrete redelivery: the step
produces no events at all — no ack — and leaves both stores unchanged,
contradicting the claim that "already present" is terminal and leads to
ack. -/
theorem c2_redelivered_entry_left_unacked :
    process_message true ⟨["R"], [⟨"R", "u", "m", some 5, 0⟩]⟩
        ⟨[⟨5, [("user", "u"), ("message", "m")]⟩], 6, some ⟨5, [5]⟩⟩
        "R" 5 [("user", "u"), ("message", "m")] =
      (⟨["R"], [⟨"R", "u", "m", some 5, 0⟩]⟩,
       ⟨[⟨5, [("user", "u"), ("message", "m")]⟩], 6, some ⟨5, [5]⟩⟩, []) := by
  rfl

/-- C3 (code_bug): src/main.py creates the consumer group (cursor `"$"` =
the log tail at creation time) BEFORE the restore appends run, so every
entry the restore path appends lands past the cursor and is new to the
group.  Evaluated at a store holding one message for room "R" and an empty
log: after `main_startup`, the relay's first group read delivers exactly
the restored entry — contradicting the claim that no restore-appended
entry is ever delivered to the relay's group read. -/
theorem c3_restored_entry_delivered_to_relay :
    (main_startup ⟨["R"], [⟨"R", "u", "m", some 99, 0⟩]⟩ TopicLog.empty "R").map
        (fun p => (XReadGroup p.1 10).map (fun q => q.2.map StreamEntry.fields)) =
      .ok (.ok [[("user", "u"), ("message", "m")]]) := by
  rfl

/-- C4: a delivered entry missing the `user` field or the `message` field
is acknowledged immediately (the only event is the ack, issued to the log)
with no durable-store write: the store is returned unchanged, so no
PersistedMessage row is created, and the acked entry leaves the pending
set, so it is not redelivered. -/
theorem c4_missing_field_acked_without_write (dbUp : Bool) (db : DBState)
    (t : TopicLog) (room_id : String) (msg_id : Nat)
    (msg_data : List (String × String))
    (h : msg_data.lookup "user" = none ∨ msg_data.lookup "message" = none) :
    (process_message dbUp db t room_id msg_id msg_data).1 = db ∧
    (process_message dbUp db t room_id msg_id msg_data).2.1 = XAck t [msg_id] ∧
    (process_message dbUp db t room_id msg_id msg_data).2.2 = [Event.ackEv msg_id] := by
  rcases h with h | h <;> simp [process_message, lookupField, h]

/-- Witness for C4 at a concrete entry that lacks the `user` field. -/
theorem c4_missing_field_acked_without_write_witness :
    (process_message true ⟨[], []⟩ TopicLog.empty "R" 7 [("message", "m")]).1
        = ⟨[], []⟩ ∧
    (process_message true ⟨[], []⟩ TopicLog.empty "R" 7 [("message", "m")]).2.1
        = XAck TopicLog.empty [7] ∧
    (process_message true ⟨[], []⟩ TopicLog.empty "R" 7 [("message", "m")]).2.2
        = [Event.ackEv 7] :=
  c4_missing_field_acked_without_write true ⟨[], []⟩ TopicLog.empty "R" 7
    [("message", "m")] (Or.inl rfl)

/-- C10: the malformed-entry check is stricter than field absence — an
entry whose `user` or `message` field is present but holds the empty
string takes exactly the missing-field path: acknowledged with no
durable-store write, no row created. -/
theorem c10_empty_field_treated_as_missing (dbUp : Bool) (db : DBState)
    (t : TopicLog) (room_id : String) (msg_id : Nat)
    (msg_data : List (String × String))
    (h : msg_data.lookup "user" = some "" ∨ msg_data.lookup "message" = some "") :
    (process_message dbUp db t room_id msg_id msg_data).1 = db ∧
    (process_message dbUp db t room_id msg_id msg_data).2.1 = XAck t [msg_id] ∧
    (process_message dbUp db t room_id msg_id msg_data).2.2 = [Event.ackEv msg_id] := by
  rcases h with h | h <;> simp [process_message, lookupField, h]

/-- Witness for C10 at a concrete entry whose `user` field is present but
empty. -/
theorem c10_empty_field_treated_as_missing_witness :
    (process_message true ⟨[], []⟩ TopicLog.empty "R" 8
        [("user", ""), ("message", "m")]).1 = ⟨[], []⟩ ∧
    (process_message true ⟨[], []⟩ TopicLog.empty "R" 8
        [("user", ""), ("message", "m")]).2.1 = XAck TopicLog.empty [8] ∧
    (process_message true ⟨[], []⟩ TopicLog.empty "R" 8
        [("user", ""), ("message", "m")]).2.2 = [Event.ackEv 8] :=
  c10_empty_field_treated_as_missing true ⟨[], []⟩ TopicLog.empty "R" 8
    [("user", ""), ("message", "m")] (Or.inl rfl)

/-- C7: the reconciliation step converges in one cycle: whatever the
in-memory active set and the store's room-id set are, after one
Reconciling step the active set equals the store's set exactly (removals
dropped, additions — including any topic that reappears — added), and the
rooms whose consumer groups get created are exactly the additions. -/
theorem c7_reconciliation_converges (active db_rooms : Finset String) :
    (reconcileRooms active db_rooms).1 = db_rooms ∧
    (reconcileRooms active db_rooms).2 = db_rooms \ active := by
  refine ⟨?_, rfl⟩
  ext x
  simp only [reconcileRooms, Finset.mem_sdiff, Finset.mem_union]
  tauto

/-- C8: XGroupCreate is idempotent: whenever the group already exists, the
underlying call's BUSYGROUP failure is matched by substring and swallowed,
so the wrapper returns normally (like success) with the log unchanged; any
other failure of the underlying call — here the service being unreachable
— is re-raised. -/
theorem c8_group_create_idempotent (t : TopicLog) (g : Group)
    (start_id : String) (hg : t.group = some g) :
    XGroupCreate true t start_id = .ok t ∧
    XGroupCreate false t start_id = .error "connection timeout" := by
  have h1 : xgroup_create_raw true t start_id =
      .error "BUSYGROUP Consumer Group name already exists" := by
    simp [xgroup_create_raw, hg]
  have h2 : xgroup_create_raw false t start_id = .error "connection timeout" := by
    simp [xgroup_create_raw]
  constructor
  · simp only [XGroupCreate, h1]
    rfl
  · simp only [XGroupCreate, h2]
    rfl

/-- Witness for C8 at a concrete log whose group exists. -/
theorem c8_group_create_idempotent_witness :
    XGroupCreate true ⟨[], 1, some ⟨0, []⟩⟩ "$" = .ok ⟨[], 1, some ⟨0, []⟩⟩ ∧
    XGroupCreate false ⟨[], 1, some ⟨0, []⟩⟩ "$" = .error "connection timeout" :=
  c8_group_create_idempotent ⟨[], 1, some ⟨0, []⟩⟩ ⟨0, []⟩ "$" rfl

/-- C1: at-least-once with exact dedup — for a well-formed entry appended
once and delivered `n ≥ 1` times to the Committing step (redelivery after
crash-before-ack, store reachable), exactly one PersistedMessage row with
that entry's origin id exists afterwards; and the at-most-one-row-per-
non-null-`redis_msg_id` invariant (the model's unique constraint) is
preserved for every origin id.  The first delivery inserts the row; every
redelivery's unconditional re-insert is stopped by the unique constraint,
which keeps the count at one. -/
theorem c1_delivered_n_times_exactly_one_row (n : Nat) (db : DBState)
    (t : TopicLog) (room_id : String) (msg_id : Nat)
    (msg_data : List (String × String))
    (hu : lookupField msg_data "user" ≠ "")
    (hm : lookupField msg_data "message" ≠ "")
    (h0 : originCount db msg_id = 0) (hn : 1 ≤ n)
    (hinv : ∀ i, originCount db i ≤ 1) :
    originCount (deliverN n db t room_id msg_id msg_data).1 msg_id = 1 ∧
    ∀ i, originCount (deliverN n db t room_id msg_id msg_data).1 i ≤ 1 := by
  obtain ⟨k, rfl⟩ : ∃ k, n = k + 1 := ⟨n - 1, by omega⟩
  have heq := process_message_fresh db t room_id msg_id msg_data hu hm h0
  simp only [deliverN, heq]
  have hc1 : originCount
      ⟨(ensure_room_exists db room_id).1.rooms,
        db.messages ++ [⟨room_id, lookupField msg_data "user",
          lookupField msg_data "message", some msg_id, db.messages.length⟩]⟩
      msg_id = 1 := by
    unfold originCount at h0 ⊢
    simp [List.countP_append, List.countP_cons, h0]
  refine deliverN_stable k _ _ room_id msg_id msg_data hu hm hc1 ?_
  intro i
  unfold originCount at h0 hinv ⊢
  simp only [List.countP_append, List.countP_cons, List.countP_nil]
  by_cases hi : i = msg_id
  · subst hi
    simp [h0]
  · have hne : (decide (some msg_id = some i)) = false := by
      simp
      exact fun h => hi h.symm
    simp [hne, Ne.symm hi]
    have := hinv i
    omega

/-- Witness for C1: two deliveries of one concrete entry leave exactly one
row with its origin id. -/
theorem c1_delivered_n_times_exactly_one_row_witness :
    originCount (deliverN 2 ⟨[], []⟩ TopicLog.empty "R" 3
      [("user", "u"), ("message", "m")]).1 3 = 1 :=
  (c1_delivered_n_times_exactly_one_row 2 ⟨[], []⟩ TopicLog.empty "R" 3
    [("user", "u"), ("message", "m")] (by decide) (by decide) rfl
    (by decide) (fun _ => Nat.zero_le 1)).1

/-- C5: for a well-formed delivered entry, in every execution of the
per-entry step the acknowledgment — when issued at all — appears in the
event trace strictly after the committed durable write of that entry; and
when the write raised (so no commit event exists), no ack is issued. -/
theorem c5_ack_only_after_commit (dbUp : Bool) (db : DBState) (t : TopicLog)
    (room_id : String) (msg_id : Nat) (msg_data : List (String × String))
    (hu : lookupField msg_data "user" ≠ "")
    (hm : lookupField msg_data "message" ≠ "") :
    commitBeforeAck msg_id (process_message dbUp db t room_id msg_id msg_data).2.2 ∧
    ((∀ m : Message,
        Event.commitMsgEv m ∉ (process_message dbUp db t room_id msg_id msg_data).2.2) →
      Event.ackEv msg_id ∉ (process_message dbUp db t room_id msg_id msg_data).2.2) := by
  cases dbUp with
  | false =>
      rw [process_message_down db t room_id msg_id msg_data hu hm]
      exact ⟨fun j hj => by simp at hj, fun _ h => by simp at h⟩
  | true =>
      by_cases hdup : 0 < originCount db msg_id
      · rw [process_message_dup db t room_id msg_id msg_data hu hm hdup]
        unfold ensure_room_exists
        split
        · exact ⟨fun j hj => by simp at hj, fun _ h => by simp at h⟩
        · refine ⟨fun j hj => ?_, fun _ h => by simp at h⟩
          match j with
          | 0 => simp at hj
          | j + 1 => simp at hj
      · have h0 : originCount db msg_id = 0 := by omega
        rw [process_message_fresh db t room_id msg_id msg_data hu hm h0]
        unfold ensure_room_exists
        split
        · refine ⟨fun j hj => ?_, fun hno _ => ?_⟩
          · match j with
            | 0 => simp at hj
            | 1 => exact ⟨0, _, by omega, rfl, rfl⟩
            | j + 2 => simp at hj
          · exact absurd (by simp) (hno ⟨room_id, lookupField msg_data "user",
              lookupField msg_data "message", some msg_id, db.messages.length⟩)
        · refine ⟨fun j hj => ?_, fun hno _ => ?_⟩
          · match j with
            | 0 => simp at hj
            | 1 => simp at hj
            | 2 => exact ⟨1, _, by omega, rfl, rfl⟩
            | j + 3 => simp at hj
          · exact absurd (by simp) (hno ⟨room_id, lookupField msg_data "user",
              lookupField msg_data "message", some msg_id, db.messages.length⟩)

/-- Witness for C5 at a concrete well-formed entry, processed against an
empty store. -/
theorem c5_ack_only_after_commit_witness :
    commitBeforeAck 3 (process_message true ⟨[], []⟩ TopicLog.empty "R" 3
      [("user", "u"), ("message", "m")]).2.2 ∧
    ((∀ m : Message, Event.commitMsgEv m ∉
        (process_message true ⟨[], []⟩ TopicLog.empty "R" 3
          [("user", "u"), ("message", "m")]).2.2) →
      Event.ackEv 3 ∉ (process_message true ⟨[], []⟩ TopicLog.empty "R" 3
        [("user", "u"), ("message", "m")]).2.2) :=
  c5_ack_only_after_commit true ⟨[], []⟩ TopicLog.empty "R" 3
    [("user", "u"), ("message", "m")] (by decide) (by decide)

/-- C6 counterexample: a topic with 60 entries appended before its
consumer group was created (cursor `"$"` = the tail, so nothing is ever
delivered).  The worker's per-topic cycle finds the log length 60 > 50 yet
issues no trim, because `process_room_stream` returns before the length
check whenever the group read delivers nothing — refuting the claim's
"if" direction. -/
theorem c6_no_trim_despite_over_bound :
    (XGroupCreate true sixtyEntryLog "$").map (fun tg =>
      (XLen tg, (process_room_stream true ⟨["R"], []⟩ tg "R").2.2.2)) =
      .ok (60, none) := by
  rfl

/-- C6 (amended): in a per-topic cycle whose group read succeeds, the
worker issues a trim if and only if the read delivered at least one entry
AND the post-drain log length exceeds 50 (an empty read returns before the
length check); an issued trim is the maxlen-50 inexact request, leaves
exactly 50 entries, and removes only oldest entries (what remains is a
trailing segment of the pre-trim log). -/
theorem c6_trim_iff_nonempty_read_over_bound (dbUp : Bool) (db : DBState)
    (t : TopicLog) (room_id : String) (t1 : TopicLog)
    (batch : List StreamEntry)
    (hread : XReadGroup t 10 = .ok (t1, batch)) :
    ((process_room_stream dbUp db t room_id).2.2.2 ≠ none ↔
      (batch ≠ [] ∧ 50 < XLen (processBatch dbUp db t1 room_id batch).2.1)) ∧
    ((process_room_stream dbUp db t room_id).2.2.2 ≠ none →
      (process_room_stream dbUp db t room_id).2.2.2 = some ⟨"maxlen", 50, false⟩ ∧
      XLen (process_room_stream dbUp db t room_id).2.1 = 50 ∧
      ∃ dropped,
        dropped ++ (process_room_stream dbUp db t room_id).2.1.entries =
          (processBatch dbUp db t1 room_id batch).2.1.entries) := by
  have hps : process_room_stream dbUp db t room_id =
      (if batch.isEmpty then (db, t1, ([], none)) else
        if 50 < XLen (processBatch dbUp db t1 room_id batch).2.1 then
          ((processBatch dbUp db t1 room_id batch).1,
           (XTrim (processBatch dbUp db t1 room_id batch).2.1 50).1,
           (processBatch dbUp db t1 room_id batch).2.2,
           some (XTrim (processBatch dbUp db t1 room_id batch).2.1 50).2)
        else
          ((processBatch dbUp db t1 room_id batch).1,
           (processBatch dbUp db t1 room_id batch).2.1,
           (processBatch dbUp db t1 room_id batch).2.2, none)) := by
    unfold process_room_stream
    rw [hread]
  by_cases hb : batch.isEmpty
  · have hbe : batch = [] := List.isEmpty_iff.mp hb
    rw [hps, if_pos hb]
    simp [hbe]
  · have hne : batch ≠ [] := fun h => hb (by simp [h])
    rw [hps, if_neg hb]
    by_cases hlen : 50 < XLen (processBatch dbUp db t1 room_id batch).2.1
    · rw [if_pos hlen]
      refine ⟨by simp [hne, hlen], fun _ => ⟨rfl, ?_, ?_⟩⟩
      · show ((processBatch dbUp db t1 room_id batch).2.1.entries.drop _).length = 50
        rw [List.length_drop]
        unfold XLen at hlen
        omega
      · exact ⟨(processBatch dbUp db t1 room_id batch).2.1.entries.take
          ((processBatch dbUp db t1 room_id batch).2.1.entries.length - 50),
          List.take_append_drop _ _⟩
    · rw [if_neg hlen]
      simp [hne, hlen]

/-- Witness for C6's amended theorem: on a log with a 51-entry backlog the
cycle's read delivers 10 entries, the post-drain length 51 exceeds 50, and
the worker issues exactly the maxlen-50 inexact trim. -/
theorem c6_trim_iff_nonempty_read_over_bound_witness :
    (process_room_stream true ⟨["R"], []⟩ relayBacklogLog "R").2.2.2 ≠ none ∧
    (process_room_stream true ⟨["R"], []⟩ relayBacklogLog "R").2.2.2 =
      some ⟨"maxlen", 50, false⟩ :=
  have h := c6_trim_iff_nonempty_read_over_bound true ⟨["R"], []⟩
    relayBacklogLog "R" relayBacklogRead.1 relayBacklogRead.2 (by rfl)
  have hne : (process_room_stream true ⟨["R"], []⟩ relayBacklogLog "R").2.2.2 ≠ none :=
    h.1.mpr ⟨by decide, by decide⟩
  ⟨hne, (h.2 hne).1⟩

/-- The restore loop (service reachable) extends the log by exactly one
`user`/`message` entry per selected row, in loop order. -/
lemma foldl_restoreStep_entries (l : List Message) : ∀ (t : TopicLog) (n : Nat),
    (l.foldl (restoreStep true) (t, n)).1.entries.map StreamEntry.fields =
      t.entries.map StreamEntry.fields ++
        l.map (fun m => [("user", m.user_id), ("message", m.message)]) := by
  induction l with
  | nil => intro t n; simp
  | cons m l ih =>
      intro t n
      have hstep : restoreStep true (t, n) m =
          (⟨t.entries ++ [⟨t.nextId, [("user", m.user_id), ("message", m.message)]⟩],
            t.nextId + 1, t.group⟩, n + 1) := rfl
      rw [List.foldl_cons, hstep, ih]
      simp

/-- C9: Bootstrap/Restore is idempotent with respect to the durable store:
a run returns the store unchanged (it performs no durable write, so any
number of runs leaves the set of PersistedMessages unchanged); its only
writes are log appends — exactly one per selected row, issued oldest-first
(the appended sequence is sorted ascending by creation time); and the
selection is the most recent at-most-`limit` stored messages of the room:
a permutation witness splits the room's rows into the selection and a
remainder every element of which is no newer than every selected row. -/
theorem c9_restore_no_store_writes_oldest_first (redisUp : Bool)
    (db : DBState) (t : TopicLog) (room_id : String) (limit : Nat) :
    (restore_messages_from_db redisUp db t room_id limit).1 = db ∧
    ((restore_messages_from_db true db t room_id limit).2.1.entries.map
        StreamEntry.fields =
      t.entries.map StreamEntry.fields ++
        (restoreSelection db room_id limit).reverse.map
          (fun m => [("user", m.user_id), ("message", m.message)])) ∧
    List.Sorted (fun a b : Message => a.created_at ≤ b.created_at)
      (restoreSelection db room_id limit).reverse ∧
    (restoreSelection db room_id limit).length ≤ limit ∧
    (restoreSelection db room_id limit ++
      (List.insertionSort recentFirst
        (db.messages.filter (fun m => m.room_id = room_id))).drop limit).Perm
      (db.messages.filter (fun m => m.room_id = room_id)) ∧
    (∀ x ∈ restoreSelection db room_id limit,
      ∀ y ∈ (List.insertionSort recentFirst
          (db.messages.filter (fun m => m.room_id = room_id))).drop limit,
        y.created_at ≤ x.created_at) := by
  have hsorted : List.Sorted recentFirst
      (List.insertionSort recentFirst
        (db.messages.filter (fun m => m.room_id = room_id))) :=
    List.sorted_insertionSort recentFirst _
  refine ⟨?_, ?_, ?_, ?_, ?_, ?_⟩
  · unfold restore_messages_from_db
    dsimp only
    split <;> rfl
  · unfold restore_messages_from_db
    dsimp only
    split
    · rename_i hnil
      rw [hnil]
      simp
    · exact foldl_restoreStep_entries _ t 0
  · show List.Pairwise (fun a b : Message => a.created_at ≤ b.created_at)
      (restoreSelection db room_id limit).reverse
    rw [List.pairwise_reverse]
    exact List.Pairwise.sublist (List.take_sublist limit _) hsorted
  · exact List.length_take_le limit _
  · rw [restoreSelection, List.take_append_drop]
    exact List.perm_insertionSort recentFirst _
  · intro x hx y hy
    have hsplit := (List.pairwise_append.mp
      (by rw [List.take_append_drop limit
        (List.insertionSort recentFirst
          (db.messages.filter (fun m => m.room_id = room_id)))]; exact hsorted))
    exact hsplit.2.2 x hx y hy

/-- Witness for C9 at a concrete store holding two messages for the room
(and one for another room): the run leaves the store unchanged and appends
the selection oldest-first. -/
theorem c9_restore_no_store_writes_oldest_first_witness :
    (restore_messages_from_db true
      ⟨["R", "S"], [⟨"R", "u1", "a", some 1, 5⟩, ⟨"S", "u9", "z", some 2, 6⟩,
        ⟨"R", "u2", "b", some 3, 7⟩]⟩
      TopicLog.empty "R" 50).1 =
      ⟨["R", "S"], [⟨"R", "u1", "a", some 1, 5⟩, ⟨"S", "u9", "z", some 2, 6⟩,
        ⟨"R", "u2", "b", some 3, 7⟩]⟩ ∧
    (restore_messages_from_db true
      ⟨["R", "S"], [⟨"R", "u1", "a", some 1, 5⟩, ⟨"S", "u9", "z", some 2, 6⟩,
        ⟨"R", "u2", "b", some 3, 7⟩]⟩
      TopicLog.empty "R" 50).2.1.entries.map StreamEntry.fields =
      [[("user", "u1"), ("message", "a")], [("user", "u2"), ("message", "b")]] :=
  have h := c9_restore_no_store_writes_oldest_first true
    ⟨["R", "S"], [⟨"R", "u1", "a", some 1, 5⟩, ⟨"S", "u9", "z", some 2, 6⟩,
      ⟨"R", "u2", "b", some 3, 7⟩]⟩
    TopicLog.empty "R" 50
  ⟨h.1, by rw [h.2.1]; rfl⟩

end ChatRelay
